import Mathlib

/-!
Shallow embedding of the spelling-check pipeline of `scripts/check_strings.py`
(class `CheckStrings`, methods `checkSpelling`, `excludeToken`, `printOutput`).

External collaborators (Hunspell spell oracle, the NLTK tokenizer and
stopword corpus, the HTML tag stripper of `html.parser`, and the `re`-based
placeable substitution) are modelled as parameters of an `Env` record, as the
spec declares them black-box dependencies.  Python `dict`s (insertion
ordered) are modelled as association lists, Python `str` as Lean `String`
with operations implemented over the underlying character list where Python
semantics matter (`str.replace`, `startswith`, `endswith`, substring tests).
-/

namespace CheckStrings

/-- `listPre p s` decides whether `p` is a leading segment of `s`
(used to model Python substring / `str.replace` scanning). -/
def listPre : List Char → List Char → Bool
  | [], _ => true
  | _ :: _, [] => false
  | a :: as, b :: bs => a == b && listPre as bs

/-- `containsSub p s` decides whether `p` occurs contiguously inside `s`. -/
def containsSub (p : List Char) : List Char → Bool
  | [] => listPre p []
  | c :: rest => listPre p (c :: rest) || containsSub p rest

/-- Python `sub in s` on strings. -/
def pyContains (s sub : String) : Bool :=
  containsSub sub.data s.data

/-- Python `s.startswith(p)` for a single candidate. -/
def pyStartswith (s p : String) : Bool :=
  listPre p.data s.data

/-- Python `s.endswith(p)`. -/
def pyEndswith (s p : String) : Bool :=
  s.data.drop (s.data.length - p.data.length) == p.data

/-- Fuel-indexed left-to-right non-overlapping replacement on character
lists, the semantics of Python `str.replace`.  The fuel is an upper bound on
the number of scanning steps; `pyReplace` supplies the list length. -/
def replaceAux (p r : List Char) : Nat → List Char → List Char
  | 0, s => s
  | _ + 1, [] => []
  | n + 1, c :: rest =>
    if listPre p (c :: rest) then
      r ++ replaceAux p r n ((c :: rest).drop p.length)
    else
      c :: replaceAux p r n rest

/-- Python `s.replace(p, r)`.  The source only ever calls it with a
non-empty pattern, so the empty pattern is mapped to the identity. -/
def pyReplace (s p r : String) : String :=
  if p.data.isEmpty then s else ⟨replaceAux p.data r.data s.data.length s.data⟩

/-- Fuel-indexed splitting on a separator, the semantics of Python
`str.split(sep)` for a non-empty separator; `acc` holds the current piece
reversed. -/
def splitAux (sep : List Char) : Nat → List Char → List Char → List (List Char)
  | 0, acc, s => [acc.reverse ++ s]
  | _ + 1, acc, [] => [acc.reverse]
  | n + 1, acc, c :: rest =>
    if listPre sep (c :: rest) then
      acc.reverse :: splitAux sep n [] ((c :: rest).drop sep.length)
    else
      splitAux sep n (c :: acc) rest

/-- Python `s.split(sep)` for a non-empty separator. -/
def pySplit (s sep : String) : List String :=
  if sep.data.isEmpty then [s]
  else (splitAux sep.data s.data.length [] s.data).map (fun l => ⟨l⟩)

/-- Python `str.upper` (ASCII case mapping, which covers every token the
claims evaluate). -/
def pyUpper (s : String) : String := ⟨s.data.map Char.toUpper⟩

/-- Python `str.lower` (ASCII case mapping). -/
def pyLower (s : String) : String := ⟨s.data.map Char.toLower⟩

/-- `os.path.splitext(path)[1]`: the extension of the final path component
(empty when the basename has no dot, or only leading dots). -/
def fileExtension (path : String) : String :=
  let base := (pySplit path "/").getLastD ""
  let parts := pySplit base "."
  if parts.length ≤ 1 then ""
  else
    let stem := String.intercalate "." parts.dropLast
    if stem.data.all (fun c => c == '.') then ""
    else "." ++ parts.getLastD ""

/-- `string.punctuation` of the Python standard library. -/
def punctuation : List String :=
  ["!", "\"", "#", "$", "%", "&", "\x27", "(", ")", "*", "+", ",", "-", ".",
   "/", ":", ";", "<", "=", ">", "?", "@", "[", "\\", "]", "^", "_", "\x60",
   "\x7b", "|", "\x7d", "~"]

/-- `CheckStrings.excludeToken`: tokens excluded after a failed spell check
(acronyms, example domains, DevTools access keys). -/
def excludeToken (token : String) : Bool :=
  if token == pyUpper token then true
  else if ["example.com", "mozilla.org"].any (fun k => pyContains token k) then true
  else if ["Alt+", "Cmd+", "Ctrl+"].any (fun k => pyContains token k) then true
  else false

/-- External collaborators of `checkSpelling`, passed as opaque functions:
the Hunspell oracle, the HTML stripper, the per-extension regex placeable
substitution, the NLTK tokenizer and the NLTK Italian stopword list. -/
structure Env where
  spell : String → Bool
  stripTags : String → String
  removePlaceables : String → String → String
  tokenize : String → List String
  stopWords : List String

/-- `spelling_exclusions.json`: excluded file prefixes and string ids. -/
structure Config where
  excludedFiles : List String
  excludedStrings : List String

/-- Mutable run state of `checkSpelling`: the report `all_errors`, the
running total `total_errors`, the frequency table `misspelled_words`, and
`ignored_strings`. -/
structure SpellResult where
  allErrors : List (String × List String)
  totalErrors : Nat
  misspelled : List (String × Nat)
  ignored : List String
  deriving DecidableEq

/-- `if message_id not in ignored_strings: ignored_strings.append(...)`. -/
def addIgnored (l : List String) (mid : String) : List String :=
  if l.contains mid then l else l ++ [mid]

/-- One update of `misspelled_words`: insert with count 1 or increment. -/
def bump (m : List (String × Nat)) (tok : String) : List (String × Nat) :=
  match m.lookup tok with
  | some _ => m.map (fun kv => if kv.1 == tok then (kv.1, kv.2 + 1) else kv)
  | none => m ++ [(tok, 1)]

/-- The empty-placeholder literals checked before normalization. -/
def litEmpty1 : String := "\x7b\"\"\x7d"

/-- The spaced variant of the empty-placeholder literal. -/
def litEmpty2 : String := "\x7b \"\" \x7d"

/-- Extensions whose strings go through placeable substitution. -/
def placeableExts : List String := [".ftl", ".properties", ".dtd", ".ini"]

/-- Lines 310–318 of the source: strip HTML, remove the ellipsis glyph,
replace the escaped newline sequence, the path separator and `=`. -/
def cleanMessage (stripTags : String → String) (msg : String) : String :=
  let c := stripTags msg
  let c := pyReplace c "…" ""
  let c := pyReplace c "\\n" " "
  let c := pyReplace c "/" " "
  let c := pyReplace c "=" " = "
  c

/-- Normalization: cleaning followed by the extension-specific placeable
substitution (the regex machinery itself is the external `removePlaceables`). -/
def normalizeMessage (env : Env) (extension msg : String) : String :=
  let c := cleanMessage env.stripTags msg
  if placeableExts.contains extension then env.removePlaceables extension c else c

/-- Body of the token loop (lines 337–386): the state is
`(errors, ignored_strings, misspelled_words)` and `i` the token index. -/
def tokenStep (env : Env) (excTokens : List String) (mid : String)
    (tokens : List String)
    (st : List String × List String × List (String × Nat)) (i : Nat) :
    List String × List String × List (String × Nat) :=
  let token := tokens.getD i ""
  if excTokens.contains token then (st.1, addIgnored st.2.1 mid, st.2.2)
  else if punctuation.contains token then st
  else if env.stopWords.contains (pyLower token) then st
  else if env.spell token then st
  else if excludeToken token then st
  else if i + 3 ≤ tokens.length ∧ tokens.getD (i + 1) "" = "’"
      ∧ env.spell (String.join ((tokens.drop i).take 3)) = true then st
  else if i + 2 ≤ tokens.length
      ∧ env.spell (String.intercalate " " ((tokens.drop i).take 2)) = true then st
  else if 1 ≤ i
      ∧ env.spell (String.intercalate " " ((tokens.drop (i - 1)).take 2)) = true then st
  else (st.1 ++ [token], st.2.1, bump st.2.2 token)

/-- The full token loop over `range(len(tokens))`, started with an empty
error list and the incoming `ignored_strings` / `misspelled_words`. -/
def runTokens (env : Env) (excTokens : List String) (mid : String)
    (tokens : List String) (ignored : List String)
    (misspelled : List (String × Nat)) :
    List String × List String × List (String × Nat) :=
  (List.range tokens.length).foldl (tokenStep env excTokens mid tokens)
    ([], ignored, misspelled)

/-- Per-message processing after the skip chain: normalize, tokenize, run
the token loop, and record errors when any remain (lines 309–398). -/
def processBody (env : Env) (exc : List (String × List String))
    (st : SpellResult) (mid extension msg : String) : SpellResult :=
  let tokens := env.tokenize (normalizeMessage env extension msg)
  let r := runTokens env ((exc.lookup mid).getD []) mid tokens st.ignored st.misspelled
  if r.1 ≠ [] then
    { allErrors := st.allErrors ++ [(mid, r.1)],
      totalErrors := st.totalErrors + r.1.length,
      misspelled := r.2.2,
      ignored := r.2.1 }
  else
    { st with ignored := r.2.1, misspelled := r.2.2 }

/-- One iteration of the `for message_id, message in self.strings.items()`
loop, including the skip chain of lines 289–307. -/
def processMessage (env : Env) (cfg : Config) (exc : List (String × List String))
    (st : SpellResult) (mid msg : String) : SpellResult :=
  let filePart := (pySplit mid ":").headD ""
  let extension := fileExtension filePart
  if cfg.excludedFiles.any (fun p => pyStartswith filePart p) then st
  else if cfg.excludedStrings.contains mid then
    { st with ignored := addIgnored st.ignored mid }
  else if extension = ".ftl" ∧ pyEndswith mid ".style" = true then st
  else if msg = "" then st
  else if msg = litEmpty1 ∨ msg = litEmpty2 then st
  else processBody env exc st mid extension msg

/-- The per-string pass of `checkSpelling` over the extracted strings. -/
def checkSpelling (env : Env) (cfg : Config) (exc : List (String × List String))
    (strings : List (String × String)) : SpellResult :=
  strings.foldl (fun st p => processMessage env cfg exc st p.1 p.2)
    { allErrors := [], totalErrors := 0, misspelled := [], ignored := [] }

/-- Exception reconciliation (lines 405–423), iterating over the stored
exception entries: prune keys for strings that no longer exist, prune keys
not in `ignored_strings`, and overwrite surviving entries whose live error
list differs. -/
def reconcile : List (String × List String) → List String → List String →
    List (String × List String) → List (String × List String)
  | [], _, _, _ => []
  | kv :: rest, ids, ign, errs =>
    if !(ids.contains kv.1) then reconcile rest ids ign errs
    else if !(ign.contains kv.1) then reconcile rest ids ign errs
    else
      match errs.lookup kv.1 with
      | some live =>
        (kv.1, if live ≠ kv.2 then live else kv.2) :: reconcile rest ids ign errs
      | none => kv :: reconcile rest ids ign errs

/-- `printOutput` (lines 447–458): exit code 1 exactly when the run found a
spelling error or a quote error, 0 otherwise. -/
def exitCode (spellingErrors : Nat) (quoteErrors : List String) : Nat :=
  if spellingErrors ≠ 0 ∨ quoteErrors ≠ [] then 1 else 0

/-! Concrete instantiations of the external collaborators, used for
counterexamples and witnesses: an identity tag stripper and placeable
substitution, a whitespace tokenizer, and simple oracles. -/

/-- Environment whose oracle accepts every word. -/
def envAccept : Env :=
  { spell := fun _ => true, stripTags := fun s => s,
    removePlaceables := fun _ s => s, tokenize := fun s => pySplit s " ",
    stopWords := [] }

/-- Environment whose oracle rejects every word. -/
def envReject : Env :=
  { spell := fun _ => false, stripTags := fun s => s,
    removePlaceables := fun _ s => s, tokenize := fun s => pySplit s " ",
    stopWords := [] }

/-- Environment whose oracle accepts exactly the join "Common Voice". -/
def envBrand : Env :=
  { spell := fun s => s == "Common Voice", stripTags := fun s => s,
    removePlaceables := fun _ s => s, tokenize := fun s => pySplit s " ",
    stopWords := [] }

/-- Empty exclusion configuration. -/
def cfg0 : Config := { excludedFiles := [], excludedStrings := [] }

/-- Configuration excluding both the file `f.ftl` and the string `f.ftl:a`. -/
def cfgBoth : Config := { excludedFiles := ["f.ftl"], excludedStrings := ["f.ftl:a"] }

/-- Configuration excluding only the string `f.ftl:a`. -/
def cfgStr : Config := { excludedFiles := [], excludedStrings := ["f.ftl:a"] }

/-! Lemmas about the reconciliation step. -/

/-- Unfolding of association-list lookup at a matching head. -/
theorem lookup_cons_self {B : Type} (k : String) (v : B) (t : List (String × B)) :
    ((k, v) :: t).lookup k = some v := by
  simp [List.lookup]

/-- Unfolding of association-list lookup past a non-matching head. -/
theorem lookup_cons_ne {B : Type} {k : String} (p : String × B) (t : List (String × B))
    (h : k ≠ p.1) : (p :: t).lookup k = t.lookup k := by
  obtain ⟨k2, v⟩ := p
  cases hbc : k == k2 with
  | true => exact absurd (eq_of_beq hbc) h
  | false => simp [List.lookup, hbc]

/-- The conditional overwrite of the source always yields the live list. -/
theorem ite_ne_self {A : Type} [DecidableEq A] (a b : A) :
    (if a ≠ b then a else b) = a := by
  by_cases h : a = b
  · simp [h]
  · simp [h]

/-- Unfolding of `reconcile` at a cons cell. -/
theorem reconcile_cons (k2 : String) (v : List String)
    (rest : List (String × List String)) (ids ign : List String)
    (errs : List (String × List String)) :
    reconcile ((k2, v) :: rest) ids ign errs =
      if !(ids.contains k2) then reconcile rest ids ign errs
      else if !(ign.contains k2) then reconcile rest ids ign errs
      else
        match errs.lookup k2 with
        | some live =>
          (k2, if live ≠ v then live else v) :: reconcile rest ids ign errs
        | none => (k2, v) :: reconcile rest ids ign errs := rfl

/-- A head entry is dropped when its string is gone or was not ignored. -/
theorem reconcile_cons_skip (k2 : String) (v : List String)
    (rest : List (String × List String)) (ids ign : List String)
    (errs : List (String × List String))
    (h : ids.contains k2 = false ∨ ign.contains k2 = false) :
    reconcile ((k2, v) :: rest) ids ign errs = reconcile rest ids ign errs := by
  rw [reconcile_cons]
  rcases h with h | h
  · rw [if_pos (by rw [h]; rfl)]
  · cases hc : ids.contains k2 with
    | false => rw [if_pos (show (!false) = true from rfl)]
    | true =>
      rw [if_neg (show ¬(!true) = true from fun hcon => by cases hcon)]
      rw [if_pos (by rw [h]; rfl)]

/-- A kept head entry with a live error list is overwritten with it. -/
theorem reconcile_cons_live (k2 : String) (v live : List String)
    (rest : List (String × List String)) (ids ign : List String)
    (errs : List (String × List String))
    (h1 : ids.contains k2 = true) (h2 : ign.contains k2 = true)
    (hlive : errs.lookup k2 = some live) :
    reconcile ((k2, v) :: rest) ids ign errs =
      (k2, live) :: reconcile rest ids ign errs := by
  rw [reconcile_cons]
  rw [if_neg (by rw [h1]; exact fun hcon => by cases hcon)]
  rw [if_neg (by rw [h2]; exact fun hcon => by cases hcon)]
  rw [hlive]
  show (k2, if live ≠ v then live else v) :: reconcile rest ids ign errs = _
  rw [ite_ne_self]

/-- A kept head entry with no live error entry is left unchanged. -/
theorem reconcile_cons_none (k2 : String) (v : List String)
    (rest : List (String × List String)) (ids ign : List String)
    (errs : List (String × List String))
    (h1 : ids.contains k2 = true) (h2 : ign.contains k2 = true)
    (hnone : errs.lookup k2 = none) :
    reconcile ((k2, v) :: rest) ids ign errs =
      (k2, v) :: reconcile rest ids ign errs := by
  rw [reconcile_cons]
  rw [if_neg (by rw [h1]; exact fun hcon => by cases hcon)]
  rw [if_neg (by rw [h2]; exact fun hcon => by cases hcon)]
  rw [hnone]

/-- Keys of strings that no longer exist are pruned by reconciliation. -/
theorem reconcile_lookup_none_of_ids (exc : List (String × List String))
    (ids ign : List String) (errs : List (String × List String)) (k : String)
    (hids : ids.contains k = false) :
    (reconcile exc ids ign errs).lookup k = none := by
  induction exc with
  | nil => rfl
  | cons kv rest ih =>
    obtain ⟨k2, v⟩ := kv
    cases h1 : ids.contains k2 with
    | false => rw [reconcile_cons_skip k2 v rest ids ign errs (Or.inl h1)]; exact ih
    | true =>
      have hk : k ≠ k2 := by
        intro he
        rw [← he] at h1
        rw [h1] at hids
        cases hids
      cases h2 : ign.contains k2 with
      | false => rw [reconcile_cons_skip k2 v rest ids ign errs (Or.inr h2)]; exact ih
      | true =>
        cases herr : errs.lookup k2 with
        | some live =>
          rw [reconcile_cons_live k2 v live rest ids ign errs h1 h2 herr]
          rw [lookup_cons_ne _ _ hk]
          exact ih
        | none =>
          rw [reconcile_cons_none k2 v rest ids ign errs h1 h2 herr]
          rw [lookup_cons_ne _ _ hk]
          exact ih

/-- Keys not recorded in `ignored_strings` are pruned by reconciliation. -/
theorem reconcile_lookup_none_of_ign (exc : List (String × List String))
    (ids ign : List String) (errs : List (String × List String)) (k : String)
    (hign : ign.contains k = false) :
    (reconcile exc ids ign errs).lookup k = none := by
  induction exc with
  | nil => rfl
  | cons kv rest ih =>
    obtain ⟨k2, v⟩ := kv
    cases h1 : ids.contains k2 with
    | false => rw [reconcile_cons_skip k2 v rest ids ign errs (Or.inl h1)]; exact ih
    | true =>
      cases h2 : ign.contains k2 with
      | false => rw [reconcile_cons_skip k2 v rest ids ign errs (Or.inr h2)]; exact ih
      | true =>
        have hk : k ≠ k2 := by
          intro he
          rw [← he] at h2
          rw [h2] at hign
          cases hign
        cases herr : errs.lookup k2 with
        | some live =>
          rw [reconcile_cons_live k2 v live rest ids ign errs h1 h2 herr]
          rw [lookup_cons_ne _ _ hk]
          exact ih
        | none =>
          rw [reconcile_cons_none k2 v rest ids ign errs h1 h2 herr]
          rw [lookup_cons_ne _ _ hk]
          exact ih

/-- A surviving key with a live error list ends up mapped to the live list. -/
theorem reconcile_lookup_kept_live (exc : List (String × List String))
    (ids ign : List String) (errs : List (String × List String)) (k : String)
    (stored live : List String)
    (hstored : exc.lookup k = some stored)
    (hids : ids.contains k = true) (hign : ign.contains k = true)
    (hlive : errs.lookup k = some live) :
    (reconcile exc ids ign errs).lookup k = some live := by
  induction exc with
  | nil => cases hstored
  | cons kv rest ih =>
    obtain ⟨k2, v⟩ := kv
    by_cases hk : k = k2
    · subst hk
      rw [reconcile_cons_live k v live rest ids ign errs hids hign hlive]
      exact lookup_cons_self k live _
    · have hrest : rest.lookup k = some stored := by
        rw [lookup_cons_ne (k2, v) rest hk] at hstored
        exact hstored
      cases h1 : ids.contains k2 with
      | false =>
        rw [reconcile_cons_skip k2 v rest ids ign errs (Or.inl h1)]
        exact ih hrest
      | true =>
        cases h2 : ign.contains k2 with
        | false =>
          rw [reconcile_cons_skip k2 v rest ids ign errs (Or.inr h2)]
          exact ih hrest
        | true =>
          cases herr : errs.lookup k2 with
          | some l2 =>
            rw [reconcile_cons_live k2 v l2 rest ids ign errs h1 h2 herr]
            rw [lookup_cons_ne _ _ hk]
            exact ih hrest
          | none =>
            rw [reconcile_cons_none k2 v rest ids ign errs h1 h2 herr]
            rw [lookup_cons_ne _ _ hk]
            exact ih hrest

/-- A surviving key with no live error entry keeps its stored list. -/
theorem reconcile_lookup_kept_none (exc : List (String × List String))
    (ids ign : List String) (errs : List (String × List String)) (k : String)
    (stored : List String)
    (hstored : exc.lookup k = some stored)
    (hids : ids.contains k = true) (hign : ign.contains k = true)
    (herrs : errs.lookup k = none) :
    (reconcile exc ids ign errs).lookup k = some stored := by
  induction exc with
  | nil => cases hstored
  | cons kv rest ih =>
    obtain ⟨k2, v⟩ := kv
    by_cases hk : k = k2
    · subst hk
      have hv : v = stored := by
        rw [lookup_cons_self] at hstored
        exact (Option.some.injEq _ _).mp hstored
      subst hv
      rw [reconcile_cons_none k v rest ids ign errs hids hign herrs]
      exact lookup_cons_self k v _
    · have hrest : rest.lookup k = some stored := by
        rw [lookup_cons_ne (k2, v) rest hk] at hstored
        exact hstored
      cases h1 : ids.contains k2 with
      | false =>
        rw [reconcile_cons_skip k2 v rest ids ign errs (Or.inl h1)]
        exact ih hrest
      | true =>
        cases h2 : ign.contains k2 with
        | false =>
          rw [reconcile_cons_skip k2 v rest ids ign errs (Or.inr h2)]
          exact ih hrest
        | true =>
          cases herr : errs.lookup k2 with
          | some l2 =>
            rw [reconcile_cons_live k2 v l2 rest ids ign errs h1 h2 herr]
            rw [lookup_cons_ne _ _ hk]
            exact ih hrest
          | none =>
            rw [reconcile_cons_none k2 v rest ids ign errs h1 h2 herr]
            rw [lookup_cons_ne _ _ hk]
            exact ih hrest

/-- Second application of reconciliation with the same inputs changes
nothing: every surviving entry passes both containment checks again and its
value already equals the live list when one exists. -/
theorem reconcile_idem (exc : List (String × List String)) (ids ign : List String)
    (errs : List (String × List String)) :
    reconcile (reconcile exc ids ign errs) ids ign errs =
      reconcile exc ids ign errs := by
  induction exc with
  | nil => rfl
  | cons kv rest ih =>
    obtain ⟨k2, v⟩ := kv
    cases h1 : ids.contains k2 with
    | false => rw [reconcile_cons_skip k2 v rest ids ign errs (Or.inl h1)]; exact ih
    | true =>
      cases h2 : ign.contains k2 with
      | false => rw [reconcile_cons_skip k2 v rest ids ign errs (Or.inr h2)]; exact ih
      | true =>
        cases herr : errs.lookup k2 with
        | some live =>
          rw [reconcile_cons_live k2 v live rest ids ign errs h1 h2 herr]
          rw [reconcile_cons_live k2 live live (reconcile rest ids ign errs)
            ids ign errs h1 h2 herr]
          rw [ih]
        | none =>
          rw [reconcile_cons_none k2 v rest ids ign errs h1 h2 herr]
          rw [reconcile_cons_none k2 v (reconcile rest ids ign errs)
            ids ign errs h1 h2 herr]
          rw [ih]

/-! Claims C1 to C4, about the exception reconciliation step. -/

/-- Claim C1 fails on the code: in this concrete run the key `f.ftl:a` is
present in the current extraction and absent from the live error map (the
report is empty), yet it survives reconciliation, because the code keys
deletion on membership in `ignored_strings` (its excused token still occurs
in the string), not on membership in the live error map. -/
theorem stale_exception_kept_cex :
    ((([("f.ftl:a", "Foo")] : List (String × String)).map Prod.fst).contains
        "f.ftl:a" = true) ∧
    (checkSpelling envAccept cfg0 [("f.ftl:a", ["Foo"])]
        [("f.ftl:a", "Foo")]).allErrors = [] ∧
    (reconcile [("f.ftl:a", ["Foo"])]
        (([("f.ftl:a", "Foo")] : List (String × String)).map Prod.fst)
        (checkSpelling envAccept cfg0 [("f.ftl:a", ["Foo"])]
          [("f.ftl:a", "Foo")]).ignored
        (checkSpelling envAccept cfg0 [("f.ftl:a", ["Foo"])]
          [("f.ftl:a", "Foo")]).allErrors).lookup "f.ftl:a" = some ["Foo"] :=
  ⟨rfl, by decide, by decide⟩

/-- Claim C1 as amended: after reconciliation, every key that corresponds to
a string_id present in the current extraction but absent from this run's
`ignored_strings` (no token of the string matched its stored exception list
and the string is not in `excluded_strings`) is deleted from the stored
exception mapping. -/
theorem reconcile_deletes_unignored (exc : List (String × List String))
    (ids ign : List String) (errs : List (String × List String)) (k : String)
    (hpresent : ids.contains k = true) (hign : ign.contains k = false) :
    (reconcile exc ids ign errs).lookup k = none :=
  reconcile_lookup_none_of_ign exc ids ign errs k hign

/-- Witness for `reconcile_deletes_unignored` at a concrete input. -/
theorem reconcile_deletes_unignored_witness :
    (["a"] : List String).contains "a" = true ∧
    (([] : List String).contains "a" = false) ∧
    (reconcile [("a", ["x"])] ["a"] [] []).lookup "a" = none :=
  ⟨rfl, rfl, reconcile_deletes_unignored [("a", ["x"])] ["a"] [] [] "a" rfl rfl⟩

/-- Claim C2: a key surviving reconciliation whose live confirmed-misspelling
list differs from its stored exception list has the stored list replaced by
the live list in the resulting mapping. -/
theorem reconcile_overwrites_changed (exc : List (String × List String))
    (ids ign : List String) (errs : List (String × List String)) (k : String)
    (stored live : List String)
    (hstored : exc.lookup k = some stored)
    (hids : ids.contains k = true) (hign : ign.contains k = true)
    (hlive : errs.lookup k = some live) (hne : live ≠ stored) :
    (reconcile exc ids ign errs).lookup k = some live :=
  reconcile_lookup_kept_live exc ids ign errs k stored live hstored hids hign hlive

/-- Witness for `reconcile_overwrites_changed` at a concrete input. -/
theorem reconcile_overwrites_changed_witness :
    (([("a", ["x"])] : List (String × List String)).lookup "a" = some ["x"]) ∧
    (["a"] : List String).contains "a" = true ∧
    (([("a", ["y"])] : List (String × List String)).lookup "a" = some ["y"]) ∧
    (["y"] : List String) ≠ ["x"] ∧
    (reconcile [("a", ["x"])] ["a"] ["a"] [("a", ["y"])]).lookup "a" = some ["y"] :=
  ⟨rfl, rfl, rfl, by decide,
    reconcile_overwrites_changed [("a", ["x"])] ["a"] ["a"] [("a", ["y"])]
      "a" ["x"] ["y"] rfl rfl rfl rfl (by decide)⟩

/-- Claim C3: a key of the stored exception mapping whose string_id is not
among the current extraction's string ids is absent after reconciliation. -/
theorem reconcile_prunes_dead_strings (exc : List (String × List String))
    (ids ign : List String) (errs : List (String × List String)) (k : String)
    (hkey : (exc.map Prod.fst).contains k = true)
    (hids : ids.contains k = false) :
    (reconcile exc ids ign errs).lookup k = none :=
  reconcile_lookup_none_of_ids exc ids ign errs k hids

/-- Witness for `reconcile_prunes_dead_strings` at a concrete input. -/
theorem reconcile_prunes_dead_strings_witness :
    ((([("a", ["x"])] : List (String × List String)).map Prod.fst).contains
        "a" = true) ∧
    ((["b"] : List String).contains "a" = false) ∧
    (reconcile [("a", ["x"])] ["b"] ["a"] []).lookup "a" = none :=
  ⟨rfl, rfl,
    reconcile_prunes_dead_strings [("a", ["x"])] ["b"] ["a"] [] "a" rfl rfl⟩

/-- Claim C4: reconciliation is idempotent: applying the reconciliation step
again with the same live error map, the same current string set and the same
ignored set, starting from the output of the first application, reproduces
that output exactly. -/
theorem reconcile_idempotent (exc : List (String × List String))
    (ids ign : List String) (errs : List (String × List String)) :
    reconcile (reconcile exc ids ign errs) ids ign errs =
      reconcile exc ids ign errs :=
  reconcile_idem exc ids ign errs

/-! Lemmas about the per-message pass. -/

/-- Processing one message either leaves the report unchanged or appends a
single entry for that message with a non-empty error list. -/
theorem processMessage_allErrors_shape (env : Env) (cfg : Config)
    (exc : List (String × List String)) (st : SpellResult) (mid msg : String) :
    (processMessage env cfg exc st mid msg).allErrors = st.allErrors ∨
    ∃ errs, errs ≠ [] ∧
      (processMessage env cfg exc st mid msg).allErrors =
        st.allErrors ++ [(mid, errs)] := by
  simp only [processMessage, processBody]
  split_ifs with h1 h2 h3 h4 h5 h6
  · exact Or.inl rfl
  · exact Or.inl rfl
  · exact Or.inl rfl
  · exact Or.inl rfl
  · exact Or.inl rfl
  · exact Or.inr ⟨_, h6, rfl⟩
  · exact Or.inl rfl

/-- A message equal to an empty-placeholder literal never touches the
report, whatever the environment (in particular the dictionary). -/
theorem processMessage_literal (env : Env) (cfg : Config)
    (exc : List (String × List String)) (st : SpellResult) (mid msg : String)
    (h : msg = litEmpty1 ∨ msg = litEmpty2) :
    (processMessage env cfg exc st mid msg).allErrors = st.allErrors := by
  simp only [processMessage]
  split_ifs with h1 h2 h3 h4
  · rfl
  · rfl
  · rfl
  · rfl
  · rfl

/-- A message whose id is in `excluded_strings` (and whose file part is not
prefix-excluded) is only recorded in `ignored_strings`. -/
theorem processMessage_excluded (env : Env) (cfg : Config)
    (exc : List (String × List String)) (st : SpellResult) (mid msg : String)
    (hfile : cfg.excludedFiles.any
      (fun p => pyStartswith ((pySplit mid ":").headD "") p) = false)
    (hexc : cfg.excludedStrings.contains mid = true) :
    processMessage env cfg exc st mid msg =
      { st with ignored := addIgnored st.ignored mid } := by
  simp only [processMessage]
  rw [if_neg (by rw [hfile]; exact fun hcon => by cases hcon)]
  rw [if_pos hexc]

/-- Appending a differently-keyed entry does not change a lookup. -/
theorem lookup_append_single {B : Type} (l : List (String × B)) (k k2 : String)
    (v : B) (h : k ≠ k2) : (l ++ [(k2, v)]).lookup k = l.lookup k := by
  induction l with
  | nil =>
    simp only [List.nil_append]
    exact lookup_cons_ne (k2, v) [] h
  | cons p rest ih =>
    by_cases hp : k = p.1
    · obtain ⟨p1, p2⟩ := p
      subst hp
      rw [List.cons_append, lookup_cons_self, lookup_cons_self]
    · rw [List.cons_append, lookup_cons_ne p _ hp, lookup_cons_ne p _ hp]
      exact ih

/-- If every entry of the run carrying the id `mid` leaves the report
unchanged, then `mid` is not a key of the final report. -/
theorem checkSpelling_lookup_none (env : Env) (cfg : Config)
    (exc : List (String × List String)) (strings : List (String × String))
    (mid : String)
    (H : ∀ (st : SpellResult) (p : String × String), p ∈ strings → p.1 = mid →
      (processMessage env cfg exc st p.1 p.2).allErrors = st.allErrors) :
    (checkSpelling env cfg exc strings).allErrors.lookup mid = none := by
  unfold checkSpelling
  have aux : ∀ (l : List (String × String)) (st : SpellResult),
      (∀ (st2 : SpellResult) (p : String × String), p ∈ l → p.1 = mid →
        (processMessage env cfg exc st2 p.1 p.2).allErrors = st2.allErrors) →
      st.allErrors.lookup mid = none →
      ((l.foldl (fun st p => processMessage env cfg exc st p.1 p.2)
        st).allErrors).lookup mid = none := by
    intro l
    induction l with
    | nil => intro st _ hst; exact hst
    | cons p rest ih =>
      intro st hH hst
      simp only [List.foldl_cons]
      apply ih
      · intro st2 q hq hq1
        exact hH st2 q (List.mem_cons_of_mem p hq) hq1
      · by_cases hp : p.1 = mid
        · rw [hH st p (List.mem_cons_self p rest) hp]
          exact hst
        · rcases processMessage_allErrors_shape env cfg exc st p.1 p.2 with
            h | ⟨errs, hne, he⟩
          · rw [h]; exact hst
          · rw [he, lookup_append_single _ mid p.1 errs (fun hmp => hp hmp.symm)]
            exact hst
  exact aux strings _ H rfl

/-- Claim C7: every string whose text equals an empty-placeholder literal is
classified as clean regardless of dictionary state, and its string_id is not
a key of the misspelling report. -/
theorem empty_placeholder_short_circuit (env : Env) (cfg : Config)
    (exc : List (String × List String)) (strings : List (String × String))
    (mid : String)
    (hlit : ∀ p ∈ strings, p.1 = mid → p.2 = litEmpty1 ∨ p.2 = litEmpty2) :
    (checkSpelling env cfg exc strings).allErrors.lookup mid = none :=
  checkSpelling_lookup_none env cfg exc strings mid
    (fun st p hp hpm => processMessage_literal env cfg exc st p.1 p.2 (hlit p hp hpm))

/-- Witness for `empty_placeholder_short_circuit` at a concrete input with an
all-rejecting dictionary. -/
theorem empty_placeholder_short_circuit_witness :
    (∀ p ∈ ([("f.ftl:a", litEmpty1), ("f.ftl:b", litEmpty2)] :
      List (String × String)), p.1 = "f.ftl:a" →
        p.2 = litEmpty1 ∨ p.2 = litEmpty2) ∧
    (checkSpelling envReject cfg0 []
      [("f.ftl:a", litEmpty1), ("f.ftl:b", litEmpty2)]).allErrors.lookup
        "f.ftl:a" = none :=
  ⟨by decide, empty_placeholder_short_circuit envReject cfg0 []
    [("f.ftl:a", litEmpty1), ("f.ftl:b", litEmpty2)] "f.ftl:a" (by decide)⟩

/-! Claim C9: the exit code of `printOutput`. -/

/-- Invariant of the per-string pass: the running total equals the summed
lengths of the recorded error lists, and every recorded list is non-empty. -/
def goodState (st : SpellResult) : Prop :=
  st.totalErrors = (st.allErrors.map (fun p => p.2.length)).sum ∧
  ∀ p ∈ st.allErrors, p.2 ≠ []

/-- Each message step preserves the invariant. -/
theorem processMessage_good (env : Env) (cfg : Config)
    (exc : List (String × List String)) (st : SpellResult) (mid msg : String)
    (h : goodState st) : goodState (processMessage env cfg exc st mid msg) := by
  simp only [processMessage, processBody]
  split_ifs with h1 h2 h3 h4 h5 h6
  · exact h
  · exact h
  · exact h
  · exact h
  · exact h
  · constructor
    · have h1sum := h.1
      show st.totalErrors + _ = _
      simp only [List.map_append, List.sum_append, List.map_cons, List.map_nil,
        List.sum_cons, List.sum_nil]
      omega
    · intro p hp
      rcases List.mem_append.mp hp with hp | hp
      · exact h.2 p hp
      · rcases List.mem_singleton.mp hp with rfl
        exact h6
  · exact h

/-- The invariant holds at the end of the pass. -/
theorem checkSpelling_good (env : Env) (cfg : Config)
    (exc : List (String × List String)) (strings : List (String × String)) :
    goodState (checkSpelling env cfg exc strings) := by
  unfold checkSpelling
  have aux : ∀ (l : List (String × String)) (st : SpellResult), goodState st →
      goodState (l.foldl (fun st p => processMessage env cfg exc st p.1 p.2) st) := by
    intro l
    induction l with
    | nil => intro st h; exact h
    | cons p rest ih =>
      intro st h
      simp only [List.foldl_cons]
      exact ih _ (processMessage_good env cfg exc st p.1 p.2 h)
  exact aux strings _ ⟨rfl, fun p hp => absurd hp (List.not_mem_nil p)⟩

/-- Claim C9: the process exits with code 1 exactly when at least one quote
error or at least one spelling error was found, and with code 0 otherwise. -/
theorem exit_code_iff_errors (env : Env) (cfg : Config)
    (exc : List (String × List String)) (strings : List (String × String))
    (quoteErrors : List String) :
    (exitCode (checkSpelling env cfg exc strings).totalErrors quoteErrors = 1 ↔
      quoteErrors ≠ [] ∨ (checkSpelling env cfg exc strings).allErrors ≠ []) ∧
    (exitCode (checkSpelling env cfg exc strings).totalErrors quoteErrors = 0 ↔
      quoteErrors = [] ∧ (checkSpelling env cfg exc strings).allErrors = []) := by
  have hgood := checkSpelling_good env cfg exc strings
  have htot : (checkSpelling env cfg exc strings).totalErrors ≠ 0 ↔
      (checkSpelling env cfg exc strings).allErrors ≠ [] := by
    constructor
    · intro hne hnil
      rw [hgood.1, hnil] at hne
      exact hne rfl
    · intro hne
      cases hae : (checkSpelling env cfg exc strings).allErrors with
      | nil => exact absurd hae hne
      | cons p rest =>
        have hp2 : p.2 ≠ [] :=
          hgood.2 p (by rw [hae]; exact List.mem_cons_self p rest)
        have hlen : 0 < p.2.length := List.length_pos.mpr hp2
        rw [hgood.1, hae]
        simp only [List.map_cons, List.sum_cons]
        omega
  by_cases hq : quoteErrors = []
  · by_cases ha : (checkSpelling env cfg exc strings).allErrors = []
    · have h0 : (checkSpelling env cfg exc strings).totalErrors = 0 := by
        by_contra hne
        exact (htot.mp hne) ha
      unfold exitCode
      rw [if_neg (fun hor => hor.elim (fun hc => hc h0) (fun hc => hc hq))]
      simp [hq, ha]
    · have hne : (checkSpelling env cfg exc strings).totalErrors ≠ 0 := htot.mpr ha
      unfold exitCode
      rw [if_pos (Or.inl hne)]
      simp [hq, ha]
  · unfold exitCode
    rw [if_pos (Or.inr hq)]
    simp [hq]

/-! Claim C10: excluded strings keep their exception entries. -/

/-- `addIgnored` preserves membership. -/
theorem mem_addIgnored_of_mem (l : List String) (mid x : String) (h : x ∈ l) :
    x ∈ addIgnored l mid := by
  unfold addIgnored
  split_ifs
  · exact h
  · exact List.mem_append_left _ h

/-- The appended id is always a member afterwards. -/
theorem mem_addIgnored_self (l : List String) (mid : String) :
    mid ∈ addIgnored l mid := by
  unfold addIgnored
  split_ifs with h
  · exact List.mem_of_elem_eq_true h
  · exact List.mem_append_right _ (List.mem_singleton_self mid)

/-- One token step only ever appends to `ignored_strings`. -/
theorem tokenStep_ignored_mono (env : Env) (excTokens : List String)
    (mid : String) (tokens : List String)
    (st : List String × List String × List (String × Nat)) (i : Nat)
    (x : String) (h : x ∈ st.2.1) :
    x ∈ (tokenStep env excTokens mid tokens st i).2.1 := by
  simp only [tokenStep]
  split_ifs
  · exact mem_addIgnored_of_mem _ _ _ h
  all_goals exact h

/-- The token loop only ever appends to `ignored_strings`. -/
theorem runTokens_ignored_mono (env : Env) (excTokens : List String)
    (mid : String) (tokens : List String) (ignored : List String)
    (mis : List (String × Nat)) (x : String) (h : x ∈ ignored) :
    x ∈ (runTokens env excTokens mid tokens ignored mis).2.1 := by
  unfold runTokens
  have aux : ∀ (l : List Nat) (st : List String × List String × List (String × Nat)),
      x ∈ st.2.1 → x ∈ (l.foldl (tokenStep env excTokens mid tokens) st).2.1 := by
    intro l
    induction l with
    | nil => intro st h2; exact h2
    | cons i rest ih =>
      intro st h2
      simp only [List.foldl_cons]
      exact ih _ (tokenStep_ignored_mono env excTokens mid tokens st i x h2)
  exact aux _ _ h

/-- A message step only ever appends to `ignored_strings`. -/
theorem processMessage_ignored_mono (env : Env) (cfg : Config)
    (exc : List (String × List String)) (st : SpellResult) (mid msg x : String)
    (h : x ∈ st.ignored) : x ∈ (processMessage env cfg exc st mid msg).ignored := by
  simp only [processMessage, processBody]
  split_ifs
  · exact h
  · exact mem_addIgnored_of_mem _ _ _ h
  · exact h
  · exact h
  · exact h
  · exact runTokens_ignored_mono env _ mid _ st.ignored st.misspelled x h
  · exact runTokens_ignored_mono env _ mid _ st.ignored st.misspelled x h

/-- An excluded string present in the extraction ends up in
`ignored_strings` (provided its file is not prefix-excluded). -/
theorem checkSpelling_excluded_mem_ignored (env : Env) (cfg : Config)
    (exc : List (String × List String)) (strings : List (String × String))
    (mid : String)
    (hfile : cfg.excludedFiles.any
      (fun p => pyStartswith ((pySplit mid ":").headD "") p) = false)
    (hexc : cfg.excludedStrings.contains mid = true)
    (hmem : ∃ msg, (mid, msg) ∈ strings) :
    mid ∈ (checkSpelling env cfg exc strings).ignored := by
  unfold checkSpelling
  have aux : ∀ (l : List (String × String)) (st : SpellResult),
      (mid ∈ st.ignored ∨ ∃ msg, (mid, msg) ∈ l) →
      mid ∈ (l.foldl (fun st p => processMessage env cfg exc st p.1 p.2)
        st).ignored := by
    intro l
    induction l with
    | nil =>
      intro st h
      rcases h with h | ⟨msg, hmsg⟩
      · exact h
      · exact absurd hmsg (List.not_mem_nil _)
    | cons p rest ih =>
      intro st h
      simp only [List.foldl_cons]
      apply ih
      rcases h with h | ⟨msg, hmsg⟩
      · exact Or.inl (processMessage_ignored_mono env cfg exc st p.1 p.2 mid h)
      · rcases List.mem_cons.mp hmsg with heq | hrest
        · left
          rw [← heq]
          show mid ∈ (processMessage env cfg exc st mid msg).ignored
          rw [processMessage_excluded env cfg exc st mid msg hfile hexc]
          exact mem_addIgnored_self st.ignored mid
        · exact Or.inr ⟨msg, hrest⟩
  exact aux strings _ (Or.inr hmem)

/-- An excluded string never becomes a key of the report. -/
theorem checkSpelling_excluded_lookup_none (env : Env) (cfg : Config)
    (exc : List (String × List String)) (strings : List (String × String))
    (mid : String)
    (hfile : cfg.excludedFiles.any
      (fun p => pyStartswith ((pySplit mid ":").headD "") p) = false)
    (hexc : cfg.excludedStrings.contains mid = true) :
    (checkSpelling env cfg exc strings).allErrors.lookup mid = none :=
  checkSpelling_lookup_none env cfg exc strings mid
    (fun st p _ hpm => by
      rw [hpm]
      rw [processMessage_excluded env cfg exc st mid p.2 hfile hexc])

/-- Claim C10 fails as stated when the excluded string's file also matches an
excluded file prefix: the message is then skipped by the file check before
the excluded-strings branch runs, the id never enters `ignored_strings`, and
reconciliation prunes its stored exception entry. -/
theorem excluded_string_exception_dropped_cex :
    cfgBoth.excludedStrings.contains "f.ftl:a" = true ∧
    ((([("f.ftl:a", "Foo")] : List (String × String)).map Prod.fst).contains
      "f.ftl:a" = true) ∧
    (([("f.ftl:a", ["Bar"])] : List (String × List String)).lookup "f.ftl:a" =
      some ["Bar"]) ∧
    (reconcile [("f.ftl:a", ["Bar"])]
      (([("f.ftl:a", "Foo")] : List (String × String)).map Prod.fst)
      (checkSpelling envAccept cfgBoth [("f.ftl:a", ["Bar"])]
        [("f.ftl:a", "Foo")]).ignored
      (checkSpelling envAccept cfgBoth [("f.ftl:a", ["Bar"])]
        [("f.ftl:a", "Foo")]).allErrors).lookup "f.ftl:a" = none :=
  ⟨rfl, rfl, rfl, by decide⟩

/-- Claim C10 as amended: a string id listed in `excluded_strings`, present
in the current extraction, holding a stored exception entry, and whose file
part is not matched by any excluded file prefix, keeps that entry with its
token list unchanged through reconciliation, even though the string is never
spell-checked and contributes no live errors. -/
theorem excluded_string_exception_kept (env : Env) (cfg : Config)
    (exc : List (String × List String)) (strings : List (String × String))
    (mid : String) (toks : List String)
    (hfile : cfg.excludedFiles.any
      (fun p => pyStartswith ((pySplit mid ":").headD "") p) = false)
    (hexc : cfg.excludedStrings.contains mid = true)
    (hmem : ∃ msg, (mid, msg) ∈ strings)
    (hstored : exc.lookup mid = some toks) :
    (reconcile exc (strings.map Prod.fst)
      (checkSpelling env cfg exc strings).ignored
      (checkSpelling env cfg exc strings).allErrors).lookup mid = some toks := by
  have hids : (strings.map Prod.fst).contains mid = true := by
    obtain ⟨msg, hmsg⟩ := hmem
    exact List.elem_eq_true_of_mem (List.mem_map_of_mem Prod.fst hmsg)
  have hign : (checkSpelling env cfg exc strings).ignored.contains mid = true :=
    List.elem_eq_true_of_mem
      (checkSpelling_excluded_mem_ignored env cfg exc strings mid hfile hexc hmem)
  have herrs : (checkSpelling env cfg exc strings).allErrors.lookup mid = none :=
    checkSpelling_excluded_lookup_none env cfg exc strings mid hfile hexc
  exact reconcile_lookup_kept_none exc (strings.map Prod.fst)
    (checkSpelling env cfg exc strings).ignored
    (checkSpelling env cfg exc strings).allErrors mid toks hstored hids hign herrs

/-- Witness for `excluded_string_exception_kept` at a concrete input. -/
theorem excluded_string_exception_kept_witness :
    (cfgStr.excludedFiles.any
      (fun p => pyStartswith ((pySplit "f.ftl:a" ":").headD "") p) = false) ∧
    cfgStr.excludedStrings.contains "f.ftl:a" = true ∧
    (("f.ftl:a", "Foo") ∈ ([("f.ftl:a", "Foo")] : List (String × String))) ∧
    (([("f.ftl:a", ["Bar"])] : List (String × List String)).lookup "f.ftl:a" =
      some ["Bar"]) ∧
    (reconcile [("f.ftl:a", ["Bar"])]
      (([("f.ftl:a", "Foo")] : List (String × String)).map Prod.fst)
      (checkSpelling envAccept cfgStr [("f.ftl:a", ["Bar"])]
        [("f.ftl:a", "Foo")]).ignored
      (checkSpelling envAccept cfgStr [("f.ftl:a", ["Bar"])]
        [("f.ftl:a", "Foo")]).allErrors).lookup "f.ftl:a" = some ["Bar"] :=
  ⟨rfl, rfl, List.mem_singleton_self _, rfl,
    excluded_string_exception_kept envAccept cfgStr [("f.ftl:a", ["Bar"])]
      [("f.ftl:a", "Foo")] "f.ftl:a" ["Bar"] rfl rfl
      ⟨"Foo", List.mem_singleton_self _⟩ rfl⟩

/-! Claim C5: compound exemption symmetry. -/

/-- A token step leaves the per-message error list unchanged unless the
token at the step's index falls through every exemption; in particular it
cannot add the token when the forward or the backward compound check
succeeds. -/
theorem tokenStep_not_mem (env : Env) (excTokens : List String) (mid : String)
    (tokens : List String)
    (st : List String × List String × List (String × Nat)) (i : Nat)
    (t : String) (h : t ∉ st.1)
    (htok : t = tokens.getD i "" →
      (i + 2 ≤ tokens.length ∧
        env.spell (String.intercalate " " ((tokens.drop i).take 2)) = true) ∨
      (1 ≤ i ∧
        env.spell (String.intercalate " " ((tokens.drop (i - 1)).take 2)) = true)) :
    t ∉ (tokenStep env excTokens mid tokens st i).1 := by
  simp only [tokenStep]
  split_ifs with h1 h2 h3 h4 h5 h6 h7 h8
  · exact h
  · exact h
  · exact h
  · exact h
  · exact h
  · exact h
  · exact h
  · exact h
  · intro hmem
    rcases List.mem_append.mp hmem with hmem | hmem
    · exact h hmem
    · rcases htok (List.mem_singleton.mp hmem) with hc | hc
      · exact h7 hc
      · exact h8 hc

/-- The three-token loop written out as three explicit steps. -/
theorem runTokens_three (env : Env) (excTokens : List String) (mid : String)
    (t0 t1 t2 : String) (ign : List String) (mis : List (String × Nat)) :
    runTokens env excTokens mid [t0, t1, t2] ign mis =
      tokenStep env excTokens mid [t0, t1, t2]
        (tokenStep env excTokens mid [t0, t1, t2]
          (tokenStep env excTokens mid [t0, t1, t2] ([], ign, mis) 0) 1) 2 := rfl

/-- Claim C5: for the token sequence of "Usa Common Voice", if the Spell
Oracle rejects "Common" and "Voice" individually but accepts the two-token
join "Common Voice", then neither "Common" (exempted by the forward compound
window) nor "Voice" (exempted by the backward compound window) is a
confirmed misspelling. -/
theorem compound_exemption_symmetry (env : Env)
    (h1 : env.spell "Common" = false) (h2 : env.spell "Voice" = false)
    (h3 : env.spell "Common Voice" = true)
    (ign : List String) (mis : List (String × Nat)) :
    "Common" ∉ (runTokens env [] "id" ["Usa", "Common", "Voice"] ign mis).1 ∧
    "Voice" ∉ (runTokens env [] "id" ["Usa", "Common", "Voice"] ign mis).1 := by
  rw [runTokens_three]
  have hj : String.intercalate " "
      (((["Usa", "Common", "Voice"] : List String).drop 1).take 2) =
        "Common Voice" := rfl
  constructor
  · apply tokenStep_not_mem
    · apply tokenStep_not_mem
      · apply tokenStep_not_mem
        · exact List.not_mem_nil _
        · intro ht; exact absurd ht (by decide)
      · intro _
        left
        refine ⟨by decide, ?_⟩
        rw [hj]
        exact h3
    · intro ht; exact absurd ht (by decide)
  · apply tokenStep_not_mem
    · apply tokenStep_not_mem
      · apply tokenStep_not_mem
        · exact List.not_mem_nil _
        · intro ht; exact absurd ht (by decide)
      · intro ht; exact absurd ht (by decide)
    · intro _
      right
      refine ⟨by decide, ?_⟩
      have hj2 : String.intercalate " "
          (((["Usa", "Common", "Voice"] : List String).drop (2 - 1)).take 2) =
            "Common Voice" := rfl
      rw [hj2]
      exact h3

/-- Witness for `compound_exemption_symmetry` with a concrete oracle that
accepts exactly the join "Common Voice". -/
theorem compound_exemption_symmetry_witness :
    envBrand.spell "Common" = false ∧ envBrand.spell "Voice" = false ∧
    envBrand.spell "Common Voice" = true ∧
    ("Common" ∉ (runTokens envBrand [] "id" ["Usa", "Common", "Voice"] [] []).1 ∧
     "Voice" ∉ (runTokens envBrand [] "id" ["Usa", "Common", "Voice"] [] []).1) :=
  ⟨by decide, by decide, by decide,
    compound_exemption_symmetry envBrand (by decide) (by decide) (by decide) [] []⟩

/-! Claim C6: normalization of ellipsis and escaped newlines. -/

/-- Replacing a single character with the empty string removes every
occurrence of it (and nothing else). -/
theorem replaceAux_single_empty (c : Char) (n : Nat) :
    ∀ s : List Char, s.length ≤ n →
      replaceAux [c] [] n s = s.filter (fun a => a != c) := by
  induction n with
  | zero =>
    intro s h
    have hs : s = [] := List.eq_nil_of_length_eq_zero (Nat.le_zero.mp h)
    subst hs
    rfl
  | succ n ih =>
    intro s h
    match s with
    | [] => rfl
    | a :: rest =>
      have hlen : rest.length ≤ n := by
        simp only [List.length_cons] at h
        omega
      by_cases hca : c = a
      · subst hca
        have hpre : listPre [c] (c :: rest) = true := by simp [listPre]
        simp only [replaceAux, hpre, if_true, List.nil_append,
          List.length_cons, List.length_nil, List.drop_succ_cons, List.drop_zero]
        rw [ih rest hlen]
        simp [List.filter]
      · have hpre : listPre [c] (a :: rest) = false := by
          simp only [listPre, Bool.and_true]
          exact beq_eq_false_iff_ne.mpr hca
        simp only [replaceAux, hpre, Bool.false_eq_true, if_false]
        rw [ih rest hlen]
        have hfa : (a != c) = true := by
          exact bne_iff_ne.mpr (fun he => hca he.symm)
        simp [List.filter, hfa]

/-- `s.replace("…", "")` deletes every ellipsis glyph. -/
theorem pyReplace_ellipsis_removes (s : String) :
    pyReplace s "…" "" = String.mk (s.data.filter (fun a => a != '…')) := by
  unfold pyReplace
  rw [if_neg (by decide)]
  exact congrArg String.mk
    (replaceAux_single_empty '…' s.data.length s.data (Nat.le_refl _))

/-- Claim C6 fails on the code: the ellipsis glyph is deleted outright, not
replaced with a space; normalizing "a…b" yields "ab" rather than "a b". -/
theorem ellipsis_not_spaced_cex :
    cleanMessage (fun s => s) "a…b" = "ab" ∧ ("ab" : String) ≠ "a b" :=
  ⟨by decide, by decide⟩

/-- Claim C6 as amended: during normalization every literal ellipsis glyph
is deleted (replaced with the empty string, not a space), and every escaped
newline sequence is replaced with a single space. -/
theorem ellipsis_deleted_newline_spaced (stripTags : String → String)
    (msg : String) :
    cleanMessage stripTags msg =
      pyReplace (pyReplace (pyReplace
        (String.mk ((stripTags msg).data.filter (fun a => a != '…')))
        "\\n" " ") "/" " ") "=" " = " := by
  simp only [cleanMessage]
  rw [pyReplace_ellipsis_removes]

/-! Claim C8: recording of confirmed misspellings. -/

/-- Across the token loop, the final frequency table equals one `bump` per
recorded error occurrence, applied in order. -/
theorem runTokens_misspelled_spec (env : Env) (excTokens : List String)
    (mid : String) (tokens : List String) (ign : List String)
    (mis : List (String × Nat)) :
    (runTokens env excTokens mid tokens ign mis).2.2 =
      (runTokens env excTokens mid tokens ign mis).1.foldl bump mis := by
  unfold runTokens
  have aux : ∀ (l : List Nat)
      (st : List String × List String × List (String × Nat)),
      st.2.2 = st.1.foldl bump mis →
      (l.foldl (tokenStep env excTokens mid tokens) st).2.2 =
        (l.foldl (tokenStep env excTokens mid tokens) st).1.foldl bump mis := by
    intro l
    induction l with
    | nil => intro st h; exact h
    | cons i rest ih =>
      intro st h
      simp only [List.foldl_cons]
      apply ih
      simp only [tokenStep]
      split_ifs
      all_goals try exact h
      rw [List.foldl_append]
      simp only [List.foldl_cons, List.foldl_nil]
      rw [h]
  exact aux _ _ rfl

/-- Claim C8 as amended: for a string reaching the token loop with at least
one confirmed misspelling, its error tokens are recorded in order (with
multiplicity) under its string_id in the report, the total grows by the
number of occurrences, and the global frequency table receives one increment
per recorded occurrence of each misspelled token — not one per distinct
token. -/
theorem errors_recorded_per_occurrence (env : Env)
    (exc : List (String × List String)) (st : SpellResult)
    (mid extension msg : String)
    (hne : (runTokens env ((exc.lookup mid).getD []) mid
      (env.tokenize (normalizeMessage env extension msg))
      st.ignored st.misspelled).1 ≠ []) :
    (processBody env exc st mid extension msg).allErrors =
      st.allErrors ++ [(mid, (runTokens env ((exc.lookup mid).getD []) mid
        (env.tokenize (normalizeMessage env extension msg))
        st.ignored st.misspelled).1)] ∧
    (processBody env exc st mid extension msg).totalErrors =
      st.totalErrors + (runTokens env ((exc.lookup mid).getD []) mid
        (env.tokenize (normalizeMessage env extension msg))
        st.ignored st.misspelled).1.length ∧
    (processBody env exc st mid extension msg).misspelled =
      (runTokens env ((exc.lookup mid).getD []) mid
        (env.tokenize (normalizeMessage env extension msg))
        st.ignored st.misspelled).1.foldl bump st.misspelled := by
  simp only [processBody]
  rw [if_pos hne]
  exact ⟨rfl, rfl, runTokens_misspelled_spec env _ mid _ st.ignored st.misspelled⟩

/-- Initial run state. -/
def st0 : SpellResult :=
  { allErrors := [], totalErrors := 0, misspelled := [], ignored := [] }

/-- Witness for `errors_recorded_per_occurrence` at a concrete input. -/
theorem errors_recorded_per_occurrence_witness :
    ((runTokens envReject ((([] : List (String × List String)).lookup
        "f.ftl:a").getD []) "f.ftl:a"
        (envReject.tokenize (normalizeMessage envReject ".ftl" "zzqx zzqx"))
        st0.ignored st0.misspelled).1 ≠ []) ∧
    (processBody envReject [] st0 "f.ftl:a" ".ftl" "zzqx zzqx").misspelled =
      (runTokens envReject ((([] : List (String × List String)).lookup
        "f.ftl:a").getD []) "f.ftl:a"
        (envReject.tokenize (normalizeMessage envReject ".ftl" "zzqx zzqx"))
        st0.ignored st0.misspelled).1.foldl bump st0.misspelled :=
  ⟨by decide,
    (errors_recorded_per_occurrence envReject [] st0 "f.ftl:a" ".ftl"
      "zzqx zzqx" (by decide)).2.2⟩

/-- Claim C8 fails on the code for repeated tokens: with text "zzqx zzqx"
both occurrences of the single distinct token "zzqx" are confirmed
misspellings, and the frequency table ends at 2 (one increment per
occurrence), where one increment per distinct token would give 1. -/
theorem freq_counts_occurrences_cex :
    (checkSpelling envReject cfg0 [] [("f.ftl:a", "zzqx zzqx")]).allErrors =
      [("f.ftl:a", ["zzqx", "zzqx"])] ∧
    (["zzqx", "zzqx"] : List String).dedup = ["zzqx"] ∧
    (checkSpelling envReject cfg0 []
      [("f.ftl:a", "zzqx zzqx")]).misspelled.lookup "zzqx" = some 2 :=
  ⟨by decide, by decide, by decide⟩

end CheckStrings
